import Mathlib

/-!
Verification of the k8s-resource-validator core against its specification.

The Go sources are shallowly embedded:
* `Resource` models `unstructured.Unstructured` restricted to the fields the
  validators read (identity, labels, owner references, creation timestamp,
  container security contexts, status).
* Partial functions (the unbounded recursive ownership walk) take an explicit
  fuel parameter; `none` models non-termination of the Go original.
* The orchestrator (`pkg/validation`) is modelled as a pure function over an
  explicit external world (fetch results, configmap lookup outcome, optional
  custom abort predicate), and it additionally returns an effect trace
  (fetch count, abort-gate check count, invoked validator names) so that
  "is invoked" / "re-fetches" claims are statable.
-/

namespace KRV

/-- An owner reference: `metav1.OwnerReference` restricted to the fields the
ownership resolver reads (kind and name; owner references carry no namespace). -/
structure OwnerRef where
  kind : String
  name : String
deriving DecidableEq, Repr

/-- `v1.SecurityContext` restricted to the fields
`foundSecurityContextPrivilegedVulnerability` reads. `procMount` is the raw
string of the proc-mount type (`"Unmasked"` models `v1.UnmaskedProcMount`). -/
structure SecurityContext where
  privileged : Option Bool := none
  allowPrivilegeEscalation : Option Bool := none
  procMount : Option String := none
  capabilitiesAdd : List String := []
deriving DecidableEq, Repr, Inhabited

/-- The open-ended `status` of a resource, restricted to what
`isResourceReady` reads: the `status.conditions` slice (each condition's
`type` and `status` string fields) and the boolean `status.ready` field.
`conditions = none` models the path being absent from the object. -/
structure ResourceStatus where
  conditions : Option (List (String × String)) := none
  ready : Option Bool := none
deriving DecidableEq, Repr, Inhabited

/-- A cluster object (`unstructured.Unstructured`) restricted to the fields
the validators read. `creationNs` is the creation timestamp in nanoseconds
(`none` models the zero time). A container is its optional security context
(the only field the privileged-pods validator reads). -/
structure Resource where
  kind : String := ""
  name : String := ""
  ns : String := ""
  apiGroup : String := ""
  labels : List (String × String) := []
  ownerRefs : List OwnerRef := []
  creationNs : Option Int := none
  containers : List (Option SecurityContext) := []
  initContainers : List (Option SecurityContext) := []
  ephemeralContainers : List (Option SecurityContext) := []
  status : ResourceStatus := {}
deriving DecidableEq, Repr, Inhabited

/-- `common.Violation`. The Go `Resource` pointer is modelled by value. -/
structure Violation where
  message : String
  resource : Resource
  level : Int
  validatorName : String
deriving DecidableEq, Repr, Inhabited

/-- `common.NewViolation`. -/
def NewViolation (resource : Resource) (message : String) (level : Int)
    (validatorName : String) : Violation :=
  ⟨message, resource, level, validatorName⟩

/-- The identity-triple comparison used by `GetOwnerReferences`,
`isInAllowlist` and `getReadinesslistItemResource`. -/
def matchesIdentity (a b : Resource) : Bool :=
  a.kind == b.kind && a.name == b.name && a.ns == b.ns

/-- `common.GetOwnerReferences`: look the item up in the snapshot by its
identity triple (first match, as `IndexFunc`) and return that snapshot
resource's owner references; `none` models the `errUnableToFindOwner` error. -/
def GetOwnerReferences (resources : List Resource) (item : Resource) :
    Option (List OwnerRef) :=
  match resources.find? (fun p => matchesIdentity item p) with
  | some r => some r.ownerRefs
  | none => none

/-- `common.GetPods`: keep the resources of kind `"Pod"`. -/
def GetPods (resources : List Resource) : List Resource :=
  resources.filter (fun s => s.kind == "Pod")

/-- The exemption label configuration (the package-level mutable
`common.ExemptPodLabelName` / `common.ExemptPodLabelValue`, threaded
explicitly). -/
structure ExemptCfg where
  labelName : String
  labelValue : String
deriving DecidableEq, Repr

/-- `common.IsExempt`: the resource's label set contains the configured
label name with exactly the configured value. -/
def IsExempt (cfg : ExemptCfg) (resource : Resource) : Bool :=
  match resource.labels.find? (fun l => l.1 == cfg.labelName) with
  | some l => l.2 == cfg.labelValue
  | none => false

/-- The owner candidate synthesized inside `isInAllowlist`'s loop: a blank
`unstructured.Unstructured` with only name, namespace (inherited from the
child) and kind set. -/
def mkOwner (ref : OwnerRef) (ns : String) : Resource :=
  { kind := ref.kind, name := ref.name, ns := ns }

/-- Left-to-right search through the recursive results of the owners loop in
`isInAllowlist`: the Go loop returns `true` on the first recursive call that
returns `true`, and diverges as soon as a recursive call diverges. -/
def firstTrue : List (Option Bool) → Option Bool
  | [] => some false
  | some true :: _ => some true
  | some false :: rest => firstTrue rest
  | none :: _ => none

/-- `allowed_pods.isInAllowlist`, with an explicit fuel parameter bounding the
recursion depth; `none` models non-termination of the Go original (which has
no cycle guard). Direct allowlist membership is checked first; otherwise each
owner reference of the snapshot resource carrying the item's identity yields a
candidate (owner kind/name, namespace inherited from the item) that is tried
recursively, left to right. -/
def isInAllowlist (allResources allowlist : List Resource) (item : Resource) :
    Nat → Option Bool
  | 0 => none
  | fuel + 1 =>
    if allowlist.any (fun itemIter => matchesIdentity item itemIter) then
      some true
    else
      match GetOwnerReferences allResources item with
      | none => some false
      | some refs =>
        firstTrue (refs.map (fun s =>
          isInAllowlist allResources allowlist (mkOwner s item.ns) fuel))

/-- The recursive ownership-membership relation that `isInAllowlist`
computes: direct allowlist membership by identity triple, or membership of
some synthesized owner candidate at any depth. -/
inductive Allowed (allResources allowlist : List Resource) : Resource → Prop
  | direct (item : Resource)
      (h : allowlist.any (fun itemIter => matchesIdentity item itemIter) = true) :
      Allowed allResources allowlist item
  | viaOwner (item : Resource) (refs : List OwnerRef) (ref : OwnerRef)
      (hrefs : GetOwnerReferences allResources item = some refs)
      (hmem : ref ∈ refs)
      (hrec : Allowed allResources allowlist (mkOwner ref item.ns)) :
      Allowed allResources allowlist item

theorem firstTrue_ne_none (l : List (Option Bool)) (h : ∀ x ∈ l, x ≠ none) :
    firstTrue l ≠ none := by
  induction l with
  | nil => simp [firstTrue]
  | cons x rest ih =>
    match x with
    | some true => simp [firstTrue]
    | some false =>
      rw [firstTrue]
      exact ih (fun y hy => h y (List.mem_cons_of_mem _ hy))
    | none => exact absurd rfl (h none (List.mem_cons_self _ _))

theorem firstTrue_eq_true (l : List (Option Bool)) (h : firstTrue l = some true) :
    ∃ x ∈ l, x = some true := by
  induction l with
  | nil => simp [firstTrue] at h
  | cons x rest ih =>
    match x with
    | some true => exact ⟨some true, List.mem_cons_self _ _, rfl⟩
    | some false =>
      rw [firstTrue] at h
      obtain ⟨y, hy, hy'⟩ := ih h
      exact ⟨y, List.mem_cons_of_mem _ hy, hy'⟩
    | none => simp [firstTrue] at h

theorem firstTrue_eq_false (l : List (Option Bool)) (h : firstTrue l = some false) :
    ∀ x ∈ l, x = some false := by
  induction l with
  | nil => simp
  | cons x rest ih =>
    match x with
    | some true => simp [firstTrue] at h
    | some false =>
      rw [firstTrue] at h
      intro y hy
      rcases List.mem_cons.mp hy with rfl | hy'
      · rfl
      · exact ih h y hy'
    | none => simp [firstTrue] at h

/-- Under a ranking function for the owner-candidate graph (which exists
exactly when the graph is acyclic), the walk never runs out of fuel once the
fuel exceeds the item's rank. -/
theorem isInAllowlist_ne_none (allR allow : List Resource) (μ : Resource → Nat)
    (hμ : ∀ it refs ref, GetOwnerReferences allR it = some refs → ref ∈ refs →
      μ (mkOwner ref it.ns) < μ it) :
    ∀ fuel item, μ item < fuel → isInAllowlist allR allow item fuel ≠ none := by
  intro fuel
  induction fuel with
  | zero => intro item h; omega
  | succ fuel ih =>
    intro item h
    rw [isInAllowlist]
    split
    · simp
    · cases hget : GetOwnerReferences allR item with
      | none => simp
      | some refs =>
        apply firstTrue_ne_none
        intro x hx
        obtain ⟨ref, hrefmem, rfl⟩ := List.mem_map.mp hx
        exact ih _ (lt_of_lt_of_le (hμ item refs ref hget hrefmem)
          (Nat.lt_succ_iff.mp h))

/-- If the walk returns `true`, the item is in the recursive ownership
closure of the allowlist (no acyclicity needed). -/
theorem allowed_of_isInAllowlist_true (allR allow : List Resource) :
    ∀ fuel item, isInAllowlist allR allow item fuel = some true →
      Allowed allR allow item := by
  intro fuel
  induction fuel with
  | zero => intro item h; simp [isInAllowlist] at h
  | succ fuel ih =>
    intro item h
    rw [isInAllowlist] at h
    split at h
    · exact Allowed.direct item (by assumption)
    · cases hget : GetOwnerReferences allR item with
      | none => rw [hget] at h; simp at h
      | some refs =>
        rw [hget] at h
        obtain ⟨x, hx, hx'⟩ := firstTrue_eq_true _ h
        obtain ⟨ref, hrefmem, rfl⟩ := List.mem_map.mp hx
        exact Allowed.viaOwner item refs ref hget hrefmem (ih _ hx')

/-- If the walk returns `false`, the item is not in the recursive ownership
closure of the allowlist (no acyclicity needed). -/
theorem not_allowed_of_isInAllowlist_false (allR allow : List Resource) :
    ∀ fuel item, isInAllowlist allR allow item fuel = some false →
      ¬ Allowed allR allow item := by
  intro fuel
  induction fuel with
  | zero => intro item h; simp [isInAllowlist] at h
  | succ fuel ih =>
    intro item h hall
    rw [isInAllowlist] at h
    split at h
    · simp at h
    · rename_i hcond
      cases hall with
      | direct _ hd => exact hcond hd
      | viaOwner _ refs ref hrefs hmem hrec =>
        rw [hrefs] at h
        have hx := firstTrue_eq_false _ h
          (isInAllowlist allR allow (mkOwner ref item.ns) fuel)
          (List.mem_map_of_mem _ hmem)
        exact ih _ hx hrec

/-- C1: Ownership resolution. Given a ranking function witnessing that the
snapshot's owner-reference graph is acyclic (so the recursion is
well-founded), `isInAllowlist` terminates with some boolean `b`, and `b` is
`true` iff the target matches an allowlist entry directly by identity triple
or, recursively at any depth, some owner reference of the snapshot resource
carrying the target's identity yields a candidate (owner kind/name, namespace
inherited from the target) that resolves to `true`; `b` is `false` when the
owner chain is exhausted without a match. -/
theorem isInAllowlist_resolves_ownership (allR allow : List Resource)
    (item : Resource) (μ : Resource → Nat)
    (hμ : ∀ it refs ref, GetOwnerReferences allR it = some refs → ref ∈ refs →
      μ (mkOwner ref it.ns) < μ it)
    (fuel : Nat) (hfuel : μ item < fuel) :
    ∃ b, isInAllowlist allR allow item fuel = some b ∧
      (b = true ↔ Allowed allR allow item) := by
  cases hres : isInAllowlist allR allow item fuel with
  | none => exact absurd hres (isInAllowlist_ne_none allR allow μ hμ fuel item hfuel)
  | some b =>
    refine ⟨b, rfl, ?_⟩
    cases b with
    | false =>
      refine ⟨fun h => absurd h (by simp), fun ha => ?_⟩
      exact absurd ha (not_allowed_of_isInAllowlist_false allR allow fuel item hres)
    | true =>
      exact ⟨fun _ => allowed_of_isInAllowlist_true allR allow fuel item hres,
        fun _ => rfl⟩

/-- Witness for C1 at a concrete input: an empty snapshot and a directly
allowlisted pod. -/
theorem isInAllowlist_resolves_ownership_witness :
    ∃ b, isInAllowlist [] [{ kind := "Pod", name := "p", ns := "n" }]
        { kind := "Pod", name := "p", ns := "n" } 1 = some b ∧
      (b = true ↔ Allowed [] [{ kind := "Pod", name := "p", ns := "n" }]
        { kind := "Pod", name := "p", ns := "n" }) := by
  apply isInAllowlist_resolves_ownership _ _ _ (fun _ => 0)
  · intro it refs ref h1 _
    simp [GetOwnerReferences] at h1
  · exact Nat.zero_lt_one

/-- A two-resource owner-reference cycle: `a` names `b` as owner and `b`
names `a` as owner, in the same namespace. -/
def cycA : Resource := { kind := "Pod", name := "a", ns := "n", ownerRefs := [⟨"Pod", "b"⟩] }

/-- The second member of the cycle. -/
def cycB : Resource := { kind := "Pod", name := "b", ns := "n", ownerRefs := [⟨"Pod", "a"⟩] }

/-- The snapshot containing the owner-reference cycle. -/
def cycSnap : List Resource := [cycA, cycB]

theorem cyc_walk_none : ∀ fuel,
    isInAllowlist cycSnap [] (mkOwner ⟨"Pod", "a"⟩ "n") fuel = none ∧
    isInAllowlist cycSnap [] (mkOwner ⟨"Pod", "b"⟩ "n") fuel = none := by
  intro fuel
  induction fuel with
  | zero => exact ⟨rfl, rfl⟩
  | succ f ih =>
    constructor
    · show firstTrue [isInAllowlist cycSnap [] (mkOwner ⟨"Pod", "b"⟩ "n") f] = none
      rw [ih.2]; rfl
    · show firstTrue [isInAllowlist cycSnap [] (mkOwner ⟨"Pod", "a"⟩ "n") f] = none
      rw [ih.1]; rfl

/-- C2: the ownership walk has no cycle guard and no depth limit. First
conjunct: it terminates (never exhausts the fuel) for every snapshot whose
owner-candidate graph admits a ranking function, i.e. is acyclic. Second
conjunct: on the concrete snapshot `cycSnap`, where two same-namespace
resources each name the other as owner and neither is in the (empty)
allowlist, the walk exhausts every fuel bound — the Go original does not
terminate. -/
theorem ownership_walk_unguarded :
    (∀ (allR allow : List Resource) (μ : Resource → Nat),
      (∀ it refs ref, GetOwnerReferences allR it = some refs → ref ∈ refs →
        μ (mkOwner ref it.ns) < μ it) →
      ∀ fuel item, μ item < fuel → isInAllowlist allR allow item fuel ≠ none) ∧
    (∀ fuel, isInAllowlist cycSnap [] cycA fuel = none) := by
  constructor
  · exact fun allR allow μ hμ => isInAllowlist_ne_none allR allow μ hμ
  · intro fuel
    cases fuel with
    | zero => rfl
    | succ f =>
      show firstTrue [isInAllowlist cycSnap [] (mkOwner ⟨"Pod", "b"⟩ "n") f] = none
      rw [(cyc_walk_none f).2]; rfl

/-- Witness for C2 at concrete inputs. -/
theorem ownership_walk_unguarded_witness :
    isInAllowlist [] [] { name := "x" } 1 ≠ none ∧
    isInAllowlist cycSnap [] cycA 5 = none := by
  constructor
  · exact ownership_walk_unguarded.1 [] [] (fun _ => 0)
      (fun it refs ref h1 _ => by simp [GetOwnerReferences] at h1) 1 { name := "x" }
      Nat.zero_lt_one
  · exact ownership_walk_unguarded.2 5

/-- Outcome of the configmap `Get` at the configured abort-flag coordinate:
the configmap is absent (a k8s not-found error), the lookup fails with some
other error, or the configmap is found and the configured field is absent or
holds the given string. -/
inductive CMResult
  | notFound
  | otherErr (e : String)
  | found (field : Option String)
deriving DecidableEq, Repr

/-- A plugged-in validator as the orchestrator sees it: a stable name and the
`Validate(resources) -> (violations, error)` capability. -/
structure OValidator where
  name : String
  run : List Resource → List Violation × Option String

/-- The external world one run interacts with: the client-creation outcome
(`getClient`), the additional-resource-types read outcome
(`readAdditionalResourceTypes`), what `fetchResources` returns, the configmap
lookup outcome, and the optional custom abort predicate with its result
(`SetAbortFunc`). -/
structure World where
  clientErr : Option String := none
  artErr : Option String := none
  fetched : List Resource := []
  cm : CMResult := CMResult.notFound
  abortFunc : Option (Bool × Option String) := none

/-- The mutable fields of `Validation` that `preValidate` updates. -/
structure VState where
  resources : List Resource := []
  preValidated : Bool := false
deriving DecidableEq, Repr

/-- Effect trace of one `Validate` call: how many snapshot fetches and
abort-gate checks it performed, and which validators it invoked (in order). -/
structure Trace where
  fetches : Nat := 0
  abortChecks : Nat := 0
  invoked : List String := []
deriving DecidableEq, Repr

/-- `Validation.shouldAbortValidation` (connect.go): a non-not-found lookup
error is returned as an error; an absent configmap or absent field resumes
validation; the value `"true"` aborts; any other value resumes. `cmName` and
`cmField` are the configured configmap name and field (used in messages). -/
def shouldAbortValidation (cmName cmField : String) (cm : CMResult) :
    Bool × String × Option String :=
  match cm with
  | CMResult.otherErr e => (false, "", some e)
  | CMResult.notFound =>
    (false, "Abort configMap " ++ cmName ++ " not found: Resuming validation", none)
  | CMResult.found none =>
    (false, "Field " ++ cmField ++ " not found in abort configMap: Resuming validation",
      none)
  | CMResult.found (some v) =>
    if v == "true" then
      (true, "Abort configMap " ++ cmName ++ " set to \"true\": Aborting validation",
        none)
    else
      (false, "Abort configMap " ++ cmName ++ " found, but field " ++ cmField ++
        " is NOT set to \"true\": Resuming validation", none)

/-- Result of `Validation.preValidate`: the updated instance state, the
`aborted` flag, the returned error, and the effect trace. -/
structure PreOut where
  state : VState
  aborted : Bool
  err : Option String
  trace : Trace

/-- `Validation.preValidate` (connect.go): if not yet prevalidated, create
the client, read the additional resource types, fetch the snapshot, then
either consult the custom abort predicate (when supplied — the configured
gate is not checked and `PreValidated` is not set) or evaluate the abort
gate; `PreValidated` is set only when the gate is passed with no abort and
no error. A repeated call returns immediately. -/
def preValidate (w : World) (cmName cmField : String) (s : VState) : PreOut :=
  if s.preValidated then ⟨s, false, none, {}⟩
  else
    match w.clientErr with
    | some e => ⟨s, false, some e, {}⟩
    | none =>
      match w.artErr with
      | some e => ⟨s, false, some e, {}⟩
      | none =>
        let s1 : VState := { s with resources := w.fetched }
        match w.abortFunc with
        | some r => ⟨s1, r.1, r.2, { fetches := 1 }⟩
        | none =>
          match shouldAbortValidation cmName cmField w.cm with
          | (_, _, some e) => ⟨s1, true, some e, { fetches := 1, abortChecks := 1 }⟩
          | (true, _, none) => ⟨s1, true, none, { fetches := 1, abortChecks := 1 }⟩
          | (false, _, none) =>
            ⟨{ s1 with preValidated := true }, false, none,
              { fetches := 1, abortChecks := 1 }⟩

/-- The validator loop of `Validation.Validate` (connect.go): invoke each
validator in order on the shared snapshot, concatenating violations (the Go
code appends only non-empty slices, which concatenates the same list),
collecting each non-nil error (joined by `errors.Join` into one error value:
non-nil iff the collected list is non-empty), and recording each invocation. -/
def runValidators (resources : List Resource) :
    List OValidator → List Violation × List String × List String
  | [] => ([], [], [])
  | v :: rest =>
    let r := v.run resources
    let acc := runValidators resources rest
    (r.1 ++ acc.1,
      (match r.2 with | some e => e :: acc.2.1 | none => acc.2.1),
      v.name :: acc.2.2)

/-- Result of `Validation.Validate`: the updated instance state, the
violations, the collected validator errors (the Go combined error is non-nil
iff this list is non-empty), and the effect trace. -/
structure VOut where
  state : VState
  violations : List Violation
  errs : List String
  trace : Trace

/-- `Validation.Validate` (connect.go): prevalidate; a prevalidation error is
returned immediately with no violations; an abort returns no violations and
no error; otherwise every validator runs in order. -/
def Validate (w : World) (cmName cmField : String) (s : VState)
    (validators : List OValidator) : VOut :=
  let p := preValidate w cmName cmField s
  match p.err with
  | some e => ⟨p.state, [], [e], p.trace⟩
  | none =>
    if p.aborted then ⟨p.state, [], [], p.trace⟩
    else
      let r := runValidators p.state.resources validators
      ⟨p.state, r.1, r.2.1, { p.trace with invoked := r.2.2 }⟩

theorem runValidators_spec (resources : List Resource) (validators : List OValidator) :
    runValidators resources validators
      = (validators.flatMap (fun v => (v.run resources).1),
         validators.filterMap (fun v => (v.run resources).2),
         validators.map OValidator.name) := by
  induction validators with
  | nil => rfl
  | cons v rest ih =>
    rw [runValidators, ih]
    refine congrArg₂ Prod.mk rfl (congrArg₂ Prod.mk ?_ rfl)
    cases h : (v.run resources).2 <;> simp [h, List.filterMap_cons]

/-- C3: Orchestrator failure isolation. Whenever prevalidation completes with
no abort and no error, the run invokes every validator in list order
(regardless of earlier validators' errors), returns the concatenation, in
list order, of all validators' violation sequences, and collects every
validator error into the combined error result returned alongside the
violations (the Go `errors.Join` value is non-nil iff this list is
non-empty). -/
theorem validate_failure_isolation (w : World) (cmName cmField : String)
    (s : VState) (validators : List OValidator) (p : PreOut)
    (hp : preValidate w cmName cmField s = p)
    (hab : p.aborted = false) (herr : p.err = none) :
    (Validate w cmName cmField s validators).violations
        = validators.flatMap (fun v => (v.run p.state.resources).1) ∧
    (Validate w cmName cmField s validators).errs
        = validators.filterMap (fun v => (v.run p.state.resources).2) ∧
    (Validate w cmName cmField s validators).trace.invoked
        = validators.map OValidator.name := by
  rw [Validate, hp, herr, hab]
  simp [runValidators_spec]

/-- A validator that fails with an error and produces no violations. -/
def wValErr : OValidator := ⟨"v-err", fun _ => ([], some "boom")⟩

/-- A violation produced by the second concrete validator. -/
def wViol : Violation := NewViolation { kind := "Pod", name := "p", ns := "n" } "bad" 1 "v-ok"

/-- A validator that returns one violation and no error. -/
def wValOk : OValidator := ⟨"v-ok", fun _ => ([wViol], none)⟩

/-- Witness for C3: with a first validator that errors, the second validator
still runs, its violation is returned, and the error is collected. -/
theorem validate_failure_isolation_witness :
    (Validate {} "landscape-state" "deploying" {} [wValErr, wValOk]).violations = [wViol] ∧
    (Validate {} "landscape-state" "deploying" {} [wValErr, wValOk]).errs = ["boom"] ∧
    (Validate {} "landscape-state" "deploying" {} [wValErr, wValOk]).trace.invoked
      = ["v-err", "v-ok"] := by
  have h := validate_failure_isolation {} "landscape-state" "deploying" {}
    [wValErr, wValOk] _ rfl rfl rfl
  simpa [wValErr, wValOk] using h

/-- A world whose abort-flag lookup fails with an error that is not a k8s
not-found error. -/
def wLookupFail : World := { cm := CMResult.otherErr "connection refused" }

/-- A validator used to show that validators are not invoked. -/
def cVal : OValidator := ⟨"v1", fun _ => ([NewViolation { kind := "Pod", name := "q", ns := "n" } "m" 1 "v1"], none)⟩

/-- Counterexample to C4: when the abort-flag lookup fails with an error
other than not-found, validation does not proceed (the supplied validator is
never invoked) and the gate's error is returned — not fail-open as the claim
states. -/
theorem abort_gate_cex :
    (Validate wLookupFail "landscape-state" "deploying" {} [cVal]).errs
        = ["connection refused"] ∧
    (Validate wLookupFail "landscape-state" "deploying" {} [cVal]).errs ≠ [] ∧
    (Validate wLookupFail "landscape-state" "deploying" {} [cVal]).violations = [] ∧
    (Validate wLookupFail "landscape-state" "deploying" {} [cVal]).trace.invoked = [] := by
  refine ⟨rfl, ?_, rfl, rfl⟩
  decide

/-- C4 (amended): with the default gate (no custom abort predicate) and a
working setup, a run is aborted with zero violations and no error iff the
configured configmap is found, contains the configured field, and the field's
value is exactly `"true"`; configmap absent (not-found), field absent, or
value other than `"true"` proceed normally with the gate contributing no
error; but a lookup failure other than not-found ends the run with zero
violations and that error returned, without invoking any validator. -/
theorem abort_gate_amended (w : World) (cmName cmField : String)
    (validators : List OValidator)
    (hc : w.clientErr = none) (ha : w.artErr = none) (hf : w.abortFunc = none) :
    (w.cm = CMResult.found (some "true") →
      Validate w cmName cmField {} validators
        = ⟨⟨w.fetched, false⟩, [], [], ⟨1, 1, []⟩⟩) ∧
    ((w.cm = CMResult.notFound ∨ w.cm = CMResult.found none ∨
        (∃ v, v ≠ "true" ∧ w.cm = CMResult.found (some v))) →
      (Validate w cmName cmField {} validators).violations
          = validators.flatMap (fun v => (v.run w.fetched).1) ∧
      (Validate w cmName cmField {} validators).errs
          = validators.filterMap (fun v => (v.run w.fetched).2) ∧
      (Validate w cmName cmField {} validators).trace.invoked
          = validators.map OValidator.name) ∧
    (∀ e, w.cm = CMResult.otherErr e →
      Validate w cmName cmField {} validators
        = ⟨⟨w.fetched, false⟩, [], [e], ⟨1, 1, []⟩⟩) := by
  refine ⟨?_, ?_, ?_⟩
  · intro hcm
    simp [Validate, preValidate, hc, ha, hf, hcm, shouldAbortValidation]
  · intro hcm
    have hpre : preValidate w cmName cmField {}
        = ⟨⟨w.fetched, true⟩, false, none, ⟨1, 1, []⟩⟩ := by
      rcases hcm with hcm | hcm | ⟨v, hv, hcm⟩
      · simp [preValidate, hc, ha, hf, hcm, shouldAbortValidation]
      · simp [preValidate, hc, ha, hf, hcm, shouldAbortValidation]
      · simp [preValidate, hc, ha, hf, hcm, shouldAbortValidation, hv]
    rw [Validate, hpre]
    simp [runValidators_spec]
  · intro e hcm
    simp [Validate, preValidate, hc, ha, hf, hcm, shouldAbortValidation]

/-- Witness for C4 (amended): a found configmap whose field is `"true"`
aborts with no violations and no error; a not-found configmap proceeds and
invokes the validator. -/
theorem abort_gate_amended_witness :
    Validate { cm := CMResult.found (some "true") } "n" "f" {} [cVal]
        = ⟨⟨[], false⟩, [], [], ⟨1, 1, []⟩⟩ ∧
    (Validate { cm := CMResult.notFound } "n" "f" {} [cVal]).trace.invoked = ["v1"] := by
  constructor
  · exact (abort_gate_amended { cm := CMResult.found (some "true") } "n" "f" [cVal]
      rfl rfl rfl).1 rfl
  · exact ((abort_gate_amended { cm := CMResult.notFound } "n" "f" [cVal]
      rfl rfl rfl).2.1 (Or.inl rfl)).2.2

/-- A world with a custom abort predicate that does not abort. -/
def wPredicate : World :=
  { fetched := [{ kind := "Pod", name := "r0", ns := "n" }],
    abortFunc := some (false, none) }

/-- A world whose abort configmap field holds `"true"`. -/
def wAborting : World := { cm := CMResult.found (some "true") }

/-- Counterexample to C7: when a custom abort predicate was supplied (even
one that lets the first call proceed), and likewise when the first call was
aborted by the gate, the instance is not marked prevalidated, so a second
`Validate` call fetches the snapshot again (and re-checks the gate in the
aborted case) — contradicting the claim that a second call never re-fetches
or re-checks. -/
theorem prevalidate_once_cex :
    ((Validate wPredicate "n" "f" {} []).state.preValidated = false ∧
      (Validate wPredicate "n" "f" ((Validate wPredicate "n" "f" {} []).state)
        []).trace.fetches = 1) ∧
    ((Validate wAborting "n" "f" {} []).state.preValidated = false ∧
      (Validate wAborting "n" "f" ((Validate wAborting "n" "f" {} []).state)
        []).trace.abortChecks = 1) := by
  exact ⟨⟨rfl, rfl⟩, ⟨rfl, rfl⟩⟩

/-- C7 (amended): prevalidation happens at most once only on the happy path:
when no custom abort predicate is supplied and the first call passes the
gate with no abort and no error, the instance is marked prevalidated, and a
second `Validate` call reuses the fetched snapshot, performing no new fetch
and no new abort-gate check. When a custom abort predicate was supplied, or
the first call aborted, the instance is not marked prevalidated (so the next
call runs prevalidation again). -/
theorem prevalidate_once_amended (w : World) (cmName cmField : String)
    (vals vals' : List OValidator)
    (hc : w.clientErr = none) (ha : w.artErr = none) (hf : w.abortFunc = none)
    (hab : (shouldAbortValidation cmName cmField w.cm).1 = false)
    (herr : (shouldAbortValidation cmName cmField w.cm).2.2 = none) :
    ((Validate w cmName cmField {} vals).state.preValidated = true ∧
      (Validate w cmName cmField {} vals).state.resources = w.fetched ∧
      (Validate w cmName cmField ((Validate w cmName cmField {} vals).state)
        vals').trace.fetches = 0 ∧
      (Validate w cmName cmField ((Validate w cmName cmField {} vals).state)
        vals').trace.abortChecks = 0 ∧
      (Validate w cmName cmField ((Validate w cmName cmField {} vals).state)
        vals').state = (Validate w cmName cmField {} vals).state) ∧
    (∀ w' : World,
      (w'.abortFunc.isSome = true ∨
        (w'.abortFunc = none ∧
          (shouldAbortValidation cmName cmField w'.cm).1 = true)) →
      (Validate w' cmName cmField {} vals).state.preValidated = false) := by
  have hpre : preValidate w cmName cmField {}
      = ⟨⟨w.fetched, true⟩, false, none, ⟨1, 1, []⟩⟩ := by
    rw [preValidate]
    simp only [hc, ha, hf]
    rcases h : shouldAbortValidation cmName cmField w.cm with ⟨b, msg, e⟩
    rw [h] at hab herr
    simp at hab herr
    subst hab; subst herr
    rfl
  constructor
  · have hfirst : (Validate w cmName cmField {} vals).state
        = ⟨w.fetched, true⟩ := by
      rw [Validate, hpre]
      simp [runValidators_spec]
    refine ⟨by rw [hfirst], by rw [hfirst], ?_, ?_, ?_⟩ <;>
      · rw [hfirst]
        simp [Validate, preValidate, runValidators_spec]
  · intro w' hw'
    rw [Validate]
    rcases hce : w'.clientErr with _ | e
    · rcases hae : w'.artErr with _ | e
      · rcases haf : w'.abortFunc with _ | r
        · rcases hw' with hw' | ⟨_, hw'⟩
          · rw [haf] at hw'; simp at hw'
          · rcases h : shouldAbortValidation cmName cmField w'.cm with ⟨b, msg, e⟩
            rw [h] at hw'
            simp at hw'
            subst hw'
            rcases e with _ | e <;>
              simp [preValidate, hce, hae, haf, h]
        · rcases hre : r.2 with _ | e
          · simp only [preValidate, hce, hae, haf, hre]
            cases r.1 <;> simp
          · simp [preValidate, hce, hae, haf, hre]
      · simp [preValidate, hce, hae]
    · simp [preValidate, hce]

/-- Witness for C7 (amended) at a concrete world: the not-found gate outcome
lets the first call mark the instance prevalidated and the second call does
not fetch; a world with a custom predicate never marks it. -/
theorem prevalidate_once_amended_witness :
    ((Validate { fetched := [{ kind := "Pod", name := "r0", ns := "n" }] } "n" "f" {}
        []).state.preValidated = true ∧
      (Validate { fetched := [{ kind := "Pod", name := "r0", ns := "n" }] } "n" "f" {}
        []).state.resources = [{ kind := "Pod", name := "r0", ns := "n" }] ∧
      (Validate { fetched := [{ kind := "Pod", name := "r0", ns := "n" }] } "n" "f"
        ((Validate { fetched := [{ kind := "Pod", name := "r0", ns := "n" }] } "n" "f"
          {} []).state) []).trace.fetches = 0 ∧
      (Validate { fetched := [{ kind := "Pod", name := "r0", ns := "n" }] } "n" "f"
        ((Validate { fetched := [{ kind := "Pod", name := "r0", ns := "n" }] } "n" "f"
          {} []).state) []).trace.abortChecks = 0 ∧
      (Validate { fetched := [{ kind := "Pod", name := "r0", ns := "n" }] } "n" "f"
        ((Validate { fetched := [{ kind := "Pod", name := "r0", ns := "n" }] } "n" "f"
          {} []).state) []).state
        = (Validate { fetched := [{ kind := "Pod", name := "r0", ns := "n" }] } "n" "f"
          {} []).state) ∧
    (∀ w' : World,
      (w'.abortFunc.isSome = true ∨
        (w'.abortFunc = none ∧ (shouldAbortValidation "n" "f" w'.cm).1 = true)) →
      (Validate w' "n" "f" {} []).state.preValidated = false) :=
  prevalidate_once_amended { fetched := [{ kind := "Pod", name := "r0", ns := "n" }] }
    "n" "f" [] [] rfl rfl rfl rfl rfl

/-- `common.ViolationTarget`: the resource identity quadruple the aggregator
groups by. -/
structure ViolationTarget where
  kind : String
  name : String
  ns : String
  group : String
deriving DecidableEq, Repr, Inhabited

/-- The identity quadruple of a violation's target resource. -/
def violationTarget (v : Violation) : ViolationTarget :=
  ⟨v.resource.kind, v.resource.name, v.resource.ns, v.resource.apiGroup⟩

/-- The `fmt.Sprintf`-style grouping key built by
`GetViolationsGroupedByResource`. Distinct identity quadruples can collide on
this string key (the fields are joined with a bare `-`); the aggregation
theorems therefore carry a no-collision hypothesis. -/
def targetKey (t : ViolationTarget) : String :=
  t.kind ++ "-" ++ t.name ++ "-" ++ t.ns ++ "-" ++ t.group

/-- The grouping key of a violation. -/
def keyStr (v : Violation) : String :=
  targetKey (violationTarget v)

/-- `common.GetViolationsGroupedByResource`: group the violations by their
string key. Go iterates a map, whose order is unspecified; the model fixes
one canonical group order (first occurrence of each key). Within each group
the violations appear in encounter order, as in the Go append. -/
def GetViolationsGroupedByResource (violations : List Violation) :
    List (List Violation) :=
  ((violations.map keyStr).dedup).map
    (fun k => violations.filter (fun v => keyStr v == k))

/-- The per-group logic of `getCustomViolations` (cmd/sample.go): a sole
violation passes through unless it is from the privileged-pods validator;
two or more violations for one resource are replaced by a single synthesized
violation with level 0, the fixed "aggregated violation" message, the first
violation's resource, and the `+`-joined contributing validator names. -/
def aggregateGroup : List Violation → List Violation
  | [] => []
  | [v] => if v.validatorName == "built-in:privileged-pods" then [] else [v]
  | v :: w :: rest =>
    [⟨"aggregated violation", v.resource, 0,
      String.intercalate "+" ((v :: w :: rest).map Violation.validatorName)⟩]

/-- `getCustomViolations` (cmd/sample.go). -/
def getCustomViolations (originalViolations : List Violation) : List Violation :=
  (GetViolationsGroupedByResource originalViolations).flatMap aggregateGroup

theorem aggregateGroup_resource_mem (grp : List Violation) (u : Violation)
    (hu : u ∈ aggregateGroup grp) : ∃ w ∈ grp, u.resource = w.resource := by
  match grp with
  | [] => simp [aggregateGroup] at hu
  | [v] =>
    rw [aggregateGroup] at hu
    split at hu
    · simp at hu
    · simp at hu
      exact ⟨v, List.mem_singleton_self v, by rw [hu]⟩
  | v :: w :: rest =>
    simp [aggregateGroup] at hu
    exact ⟨v, List.mem_cons_self _ _, by rw [hu]⟩

theorem keyStr_of_resource_eq {u w : Violation} (h : u.resource = w.resource) :
    keyStr u = keyStr w := by
  simp [keyStr, violationTarget, h]

theorem violationTarget_of_resource_eq {u w : Violation}
    (h : u.resource = w.resource) : violationTarget u = violationTarget w := by
  simp [violationTarget, h]

theorem aggregateGroup_key (k : String) (grp : List Violation)
    (hg : ∀ w ∈ grp, keyStr w = k) :
    ∀ u ∈ aggregateGroup grp, keyStr u = k := by
  intro u hu
  obtain ⟨w, hw, hres⟩ := aggregateGroup_resource_mem grp u hu
  rw [keyStr_of_resource_eq hres]
  exact hg w hw

theorem filter_flatMap_key (keys : List String) (hnd : keys.Nodup)
    (f : String → List Violation) (hf : ∀ k, ∀ u ∈ f k, keyStr u = k)
    (k0 : String) :
    (keys.flatMap f).filter (fun v => keyStr v == k0)
      = if k0 ∈ keys then f k0 else [] := by
  induction keys with
  | nil => simp
  | cons k rest ih =>
    rw [List.flatMap_cons, List.filter_append,
      ih (List.Nodup.of_cons hnd)]
    by_cases hk : k = k0
    · subst hk
      have h1 : (f k).filter (fun v => keyStr v == k) = f k := by
        rw [List.filter_eq_self]
        intro u hu
        simp [hf k u hu]
      have h2 : k ∉ rest := (List.nodup_cons.mp hnd).1
      simp [h1, h2]
    · have h1 : (f k).filter (fun v => keyStr v == k0) = [] := by
        rw [List.filter_eq_nil_iff]
        intro u hu
        simp [hf k u hu, hk]
      rw [h1, List.nil_append]
      have hk' : ¬ k0 = k := fun h => hk h.symm
      simp [List.mem_cons, hk']

theorem getCustomViolations_filter (vs : List Violation) (k0 : String) :
    (getCustomViolations vs).filter (fun v => keyStr v == k0)
      = if k0 ∈ (vs.map keyStr).dedup then
          aggregateGroup (vs.filter (fun v => keyStr v == k0))
        else [] := by
  rw [getCustomViolations, GetViolationsGroupedByResource, List.flatMap_map]
  exact filter_flatMap_key _ (List.nodup_dedup _) _
    (fun k u hu => aggregateGroup_key k _
      (fun w hw => by simpa using (List.mem_filter.mp hw).2) u hu) k0

theorem getCustomViolations_resource_mem (vs : List Violation) (u : Violation)
    (hu : u ∈ getCustomViolations vs) : ∃ w ∈ vs, u.resource = w.resource := by
  rw [getCustomViolations] at hu
  obtain ⟨grp, hgrp, hu'⟩ := List.mem_flatMap.mp hu
  rw [GetViolationsGroupedByResource] at hgrp
  obtain ⟨k, _, rfl⟩ := List.mem_map.mp hgrp
  obtain ⟨w, hw, hres⟩ := aggregateGroup_resource_mem _ u hu'
  exact ⟨w, (List.mem_filter.mp hw).1, hres⟩

theorem target_iff_key (vs : List Violation)
    (hinj : ∀ u ∈ vs, ∀ w ∈ vs, keyStr u = keyStr w →
      violationTarget u = violationTarget w)
    (v0 : Violation) (hv0 : v0 ∈ vs) (q : ViolationTarget)
    (hq : violationTarget v0 = q) (w : Violation) (hw : w ∈ vs) :
    violationTarget w = q ↔ keyStr w = targetKey q := by
  constructor
  · intro h; rw [keyStr, h]
  · intro h
    have hk0 : keyStr v0 = targetKey q := by rw [keyStr, hq]
    rw [hinj w hw v0 hv0 (h.trans hk0.symm), hq]

theorem filter_target_eq_filter_key (vs : List Violation) (q : ViolationTarget)
    (hinj : ∀ u ∈ vs, ∀ w ∈ vs, keyStr u = keyStr w →
      violationTarget u = violationTarget w)
    (v0 : Violation) (hv0 : v0 ∈ vs) (hq : violationTarget v0 = q) :
    vs.filter (fun v => violationTarget v == q)
      = vs.filter (fun v => keyStr v == targetKey q) := by
  apply List.filter_congr
  intro w hw
  rw [Bool.eq_iff_iff]
  simp only [beq_iff_eq]
  exact target_iff_key vs hinj v0 hv0 q hq w hw

theorem filter_target_out (vs : List Violation) (q : ViolationTarget)
    (hinj : ∀ u ∈ vs, ∀ w ∈ vs, keyStr u = keyStr w →
      violationTarget u = violationTarget w)
    (v0 : Violation) (hv0 : v0 ∈ vs) (hq : violationTarget v0 = q) :
    (getCustomViolations vs).filter (fun v => violationTarget v == q)
      = (getCustomViolations vs).filter (fun v => keyStr v == targetKey q) := by
  apply List.filter_congr
  intro u hu
  obtain ⟨w, hw, hres⟩ := getCustomViolations_resource_mem vs u hu
  rw [Bool.eq_iff_iff]
  simp only [beq_iff_eq]
  rw [violationTarget_of_resource_eq hres, keyStr_of_resource_eq hres]
  exact target_iff_key vs hinj v0 hv0 q hq w hw

/-- C5 (amended): for every input violation list (whose targets do not
collide on the string grouping key) and every resource identity with two or
more grouped violations, the aggregator output contains exactly one violation
for that identity; its level is 0 — the most severe possible level, set
unconditionally, not the minimum of the contributing levels — its validator
identifier is the contributing validator names joined by `+` in encounter
order, its message is the fixed "aggregated violation" marker, and its
resource is the first contributing violation's resource. -/
theorem aggregator_escalation (vs : List Violation) (q : ViolationTarget)
    (hinj : ∀ u ∈ vs, ∀ w ∈ vs, keyStr u = keyStr w →
      violationTarget u = violationTarget w)
    (h2 : 2 ≤ (vs.filter (fun v => violationTarget v == q)).length) :
    (getCustomViolations vs).filter (fun v => violationTarget v == q)
      = [⟨"aggregated violation",
          ((vs.filter (fun v => violationTarget v == q)).headD default).resource, 0,
          String.intercalate "+"
            ((vs.filter (fun v => violationTarget v == q)).map
              Violation.validatorName)⟩] := by
  have hne : vs.filter (fun v => violationTarget v == q) ≠ [] := by
    intro h
    rw [h] at h2
    simp at h2
  obtain ⟨v0, hv0mem⟩ := List.exists_mem_of_ne_nil _ hne
  have hv0 := List.mem_filter.mp hv0mem
  have hq : violationTarget v0 = q := by simpa using hv0.2
  have hin := filter_target_eq_filter_key vs q hinj v0 hv0.1 hq
  have hout := filter_target_out vs q hinj v0 hv0.1 hq
  have hmem : targetKey q ∈ (vs.map keyStr).dedup := by
    rw [List.mem_dedup]
    exact List.mem_map.mpr ⟨v0, hv0.1, by rw [keyStr, hq]⟩
  rw [hout, getCustomViolations_filter, if_pos hmem, ← hin]
  rcases hg : vs.filter (fun v => violationTarget v == q) with _ | ⟨a, _ | ⟨b, rest⟩⟩
  · rw [hg] at h2; simp at h2
  · rw [hg] at h2; simp at h2
  · rfl

/-- The common resource of the C5 counterexample violations. -/
def cxA : Resource := { kind := "Pod", name := "a", ns := "n" }

/-- First contributing violation, level 1. -/
def cxV1 : Violation := ⟨"m1", cxA, 1, "val1"⟩

/-- Second contributing violation, level 2. -/
def cxV2 : Violation := ⟨"m2", cxA, 2, "val2"⟩

/-- Counterexample to C5 as stated: two violations for the same resource with
levels 1 and 2 are aggregated into a violation with level 0, not the most
severe (numerically smallest) contributing level, which is 1. -/
theorem aggregator_escalation_cex :
    getCustomViolations [cxV1, cxV2]
      = [⟨"aggregated violation", cxA, 0, "val1+val2"⟩] ∧
    min cxV1.level cxV2.level = 1 ∧
    (∀ u ∈ getCustomViolations [cxV1, cxV2],
      u.level ≠ min cxV1.level cxV2.level) := by
  refine ⟨?_, by decide, by decide⟩
  decide

/-- The identity quadruple of `cxA`. -/
def cxQ : ViolationTarget := ⟨"Pod", "a", "n", ""⟩

/-- Witness for C5 (amended) at a concrete input. -/
theorem aggregator_escalation_witness :
    (getCustomViolations [cxV1, cxV2]).filter (fun v => violationTarget v == cxQ)
      = [⟨"aggregated violation",
          (([cxV1, cxV2].filter (fun v => violationTarget v == cxQ)).headD
            default).resource, 0,
          String.intercalate "+"
            (([cxV1, cxV2].filter (fun v => violationTarget v == cxQ)).map
              Violation.validatorName)⟩] :=
  aggregator_escalation [cxV1, cxV2] cxQ (by decide) (by decide)

/-- C6 (amended): provided no two violations in the input collide on the
string grouping key while having distinct identity quadruples, a resource
identity with exactly one grouped violation passes through unchanged, except
that a sole violation from the privileged-pods validator is suppressed; an
identity with no violation in the input never appears in the output. -/
theorem aggregator_passthrough (vs : List Violation) (q : ViolationTarget)
    (hinj : ∀ u ∈ vs, ∀ w ∈ vs, keyStr u = keyStr w →
      violationTarget u = violationTarget w) :
    ((vs.filter (fun v => violationTarget v == q)).length = 1 →
      (getCustomViolations vs).filter (fun v => violationTarget v == q)
        = if ((vs.filter (fun v => violationTarget v == q)).headD
              default).validatorName == "built-in:privileged-pods" then []
          else vs.filter (fun v => violationTarget v == q)) ∧
    (vs.filter (fun v => violationTarget v == q) = [] →
      (getCustomViolations vs).filter (fun v => violationTarget v == q) = []) := by
  constructor
  · intro h1
    rcases hg : vs.filter (fun v => violationTarget v == q) with _ | ⟨a, _ | ⟨b, rest⟩⟩
    · rw [hg] at h1; simp at h1
    · have hamem : a ∈ vs.filter (fun v => violationTarget v == q) := by
        rw [hg]; exact List.mem_singleton_self a
      have ha := List.mem_filter.mp hamem
      have hq : violationTarget a = q := by simpa using ha.2
      have hin := filter_target_eq_filter_key vs q hinj a ha.1 hq
      have hout := filter_target_out vs q hinj a ha.1 hq
      have hmem : targetKey q ∈ (vs.map keyStr).dedup := by
        rw [List.mem_dedup]
        exact List.mem_map.mpr ⟨a, ha.1, by rw [keyStr, hq]⟩
      rw [hout, getCustomViolations_filter, if_pos hmem, ← hin, hg]
      rfl
    · rw [hg] at h1; simp at h1
  · intro h0
    rw [List.filter_eq_nil_iff]
    intro u hu
    obtain ⟨w, hw, hres⟩ := getCustomViolations_resource_mem vs u hu
    intro hut
    have hwt : (violationTarget w == q) = true := by
      rw [violationTarget_of_resource_eq hres] at hut
      exact hut
    have : w ∈ vs.filter (fun v => violationTarget v == q) :=
      List.mem_filter.mpr ⟨hw, hwt⟩
    rw [h0] at this
    simp at this

/-- A violation whose target identity (kind `A-b`, name `c`) collides on the
string grouping key with `clV2`'s. -/
def clV1 : Violation := ⟨"m1", { kind := "A-b", name := "c", ns := "n" }, 1, "v1"⟩

/-- A violation whose target identity (kind `A`, name `b-c`) is distinct from
`clV1`'s but produces the same string grouping key. -/
def clV2 : Violation := ⟨"m2", { kind := "A", name := "b-c", ns := "n" }, 1, "v2"⟩

/-- Counterexample to C6 as stated: the Go grouping key joins the identity
quadruple with bare `-`, so the distinct identities of `clV1` and `clV2`
collide on it. `clV1`'s identity has exactly one grouped violation (its own)
and is not from the privileged-pods validator, yet the output for that
identity is a synthesized aggregated violation, not `clV1` passed through
unchanged. -/
theorem aggregator_passthrough_cex :
    violationTarget clV1 ≠ violationTarget clV2 ∧
    keyStr clV1 = keyStr clV2 ∧
    [clV1, clV2].filter (fun v => violationTarget v == violationTarget clV1)
      = [clV1] ∧
    clV1.validatorName ≠ "built-in:privileged-pods" ∧
    (getCustomViolations [clV1, clV2]).filter
        (fun v => violationTarget v == violationTarget clV1)
      = [⟨"aggregated violation", clV1.resource, 0, "v1+v2"⟩] ∧
    (getCustomViolations [clV1, clV2]).filter
        (fun v => violationTarget v == violationTarget clV1)
      ≠ [clV1] := by
  refine ⟨by decide, by decide, by decide, by decide, by decide, by decide⟩

/-- A sole violation from the privileged-pods validator. -/
def pvV : Violation := ⟨"found privileged pod", cxA, 1, "built-in:privileged-pods"⟩

/-- An identity quadruple matching nothing in the C6 witness input. -/
def cxQabsent : ViolationTarget := ⟨"Pod", "zzz", "n", ""⟩

/-- Witness for C6 at concrete inputs: a sole privileged-pods violation is
suppressed, and an identity with no violations yields no output. -/
theorem aggregator_passthrough_witness :
    ((getCustomViolations [pvV]).filter (fun v => violationTarget v == cxQ)
      = if (([pvV].filter (fun v => violationTarget v == cxQ)).headD
            default).validatorName == "built-in:privileged-pods" then []
        else [pvV].filter (fun v => violationTarget v == cxQ)) ∧
    (getCustomViolations [cxV1]).filter (fun v => violationTarget v == cxQabsent)
      = [] :=
  ⟨(aggregator_passthrough [pvV] cxQ (by decide)).1 (by decide),
    (aggregator_passthrough [cxV1] cxQabsent (by decide)).2 (by decide)⟩

/-- `readiness.ReadinesslistItem` (name, namespace, kind). -/
structure ReadinesslistItem where
  name : String
  ns : String
  kind : String
deriving DecidableEq, Repr

/-- A resource identity triple (kind, name, namespace). -/
structure IdTriple where
  kind : String
  name : String
  ns : String
deriving DecidableEq, Repr

/-- The identity triple of a resource. -/
def resourceId (r : Resource) : IdTriple := ⟨r.kind, r.name, r.ns⟩

/-- The identity triple of a readiness-list item. -/
def itemId (i : ReadinesslistItem) : IdTriple := ⟨i.kind, i.name, i.ns⟩

/-- `readiness.getReadinesslistItemResource`: the first snapshot resource
matching the item's identity triple (flag `true`), or a synthesized resource
carrying just that identity when absent (flag `false`). -/
def getReadinesslistItemResource (resources : List Resource)
    (readinesslistItem : ReadinesslistItem) : Resource × Bool :=
  match resources.find? (fun resourceIter =>
      readinesslistItem.kind == resourceIter.kind &&
      readinesslistItem.name == resourceIter.name &&
      readinesslistItem.ns == resourceIter.ns) with
  | some r => (r, true)
  | none =>
    ({ kind := readinesslistItem.kind, name := readinesslistItem.name,
       ns := readinesslistItem.ns }, false)

/-- `readiness.isResourceReady` on the typed status model: when the
`status.conditions` path is present, ready iff some condition has type
`Ready` and status `True` (the `status.ready` field is then never consulted);
when it is absent, ready iff the boolean `status.ready` field is present and
true. The Go error paths (malformed nested fields) cannot arise in the typed
model. -/
def isResourceReady (resource : Resource) : Bool :=
  match resource.status.conditions with
  | some conditions =>
    match conditions.find? (fun condition =>
        condition.1 == "Ready" && condition.2 == "True") with
    | some _ => true
    | none => false
  | none =>
    match resource.status.ready with
    | some ready => ready
    | none => false

/-- The violations `ReadinessValidator.Validate` records for one
readiness-list item: a missing matching resource is a violation unless
`ignoreMissingResources` is set; a present resource is a violation iff it is
not ready. -/
def readinessEntryViolations (resources : List Resource)
    (ignoreMissingResources : Bool) (item : ReadinesslistItem) : List Violation :=
  let r := getReadinesslistItemResource resources item
  if r.2 = false then
    if ignoreMissingResources then []
    else [NewViolation r.1 "readiness violation" 1 "built-in:readiness"]
  else if isResourceReady r.1 then []
  else [NewViolation r.1 "readiness violation" 1 "built-in:readiness"]

/-- `ReadinessValidator.Validate`, given the already-parsed readiness list
(the file read and YAML parse are external collaborators; a read/parse
failure is a hard validator error before this loop runs). -/
def readinessValidate (readinesslist : List ReadinesslistItem)
    (ignoreMissingResources : Bool) (resources : List Resource) : List Violation :=
  readinesslist.flatMap (readinessEntryViolations resources ignoreMissingResources)

/-- `freshness.isPodStale`: a pod with no creation timestamp is never stale;
otherwise stale iff the elapsed time since creation exceeds the threshold.
`now` models `metav1.Now()` in nanoseconds; the Go float comparison
`diff.Hours() > float64(threshold)` is modelled exactly as
`diff > threshold * 3600e9` over integers. -/
def isPodStale (now : Int) (pod : Resource)
    (freshnessThresholdInHours : Int) : Bool :=
  match pod.creationNs with
  | none => false
  | some t => now - t > freshnessThresholdInHours * 3600000000000

/-- `FreshnessValidator.Validate`. -/
def freshnessValidate (cfg : ExemptCfg) (now : Int)
    (freshnessThresholdInHours : Int) (resources : List Resource) :
    List Violation :=
  (GetPods resources).flatMap (fun p =>
    if IsExempt cfg p then []
    else if isPodStale now p freshnessThresholdInHours then
      [NewViolation p "Pod is stale" 1 "built-in:freshness"]
    else [])

/-- `privileged_pods.excessiveCapabilities`. -/
def excessiveCapabilities : List String := ["CAP_SYS_ADMIN"]

/-- `privileged_pods.privilegedReasonTpl` instantiated. -/
def privilegedReason (field value : String) : String :=
  "securityContext " ++ field ++ " value is " ++ value ++ "\n"

/-- `privileged_pods.foundSecurityContextPrivilegedVulnerability`. -/
def foundSecurityContextPrivilegedVulnerability :
    Option SecurityContext → String
  | none => ""
  | some securityContext =>
    if securityContext.procMount == some "Unmasked" then
      privilegedReason "ProcMount" "Unmasked"
    else if securityContext.allowPrivilegeEscalation == some true then
      privilegedReason "AllowPrivilegeEscalation" "true"
    else if securityContext.privileged == some true then
      privilegedReason "Privileged" "true"
    else
      match securityContext.capabilitiesAdd.find? (fun capability =>
          excessiveCapabilities.contains capability) with
      | some capability => privilegedReason "capabilities" capability
      | none => ""

/-- `privileged_pods.foundPrivilegedVulnerabilityContainer` for one container
list: the first non-empty reason, if any. -/
def foundPrivilegedVulnerabilityContainer :
    List (Option SecurityContext) → String
  | [] => ""
  | container :: rest =>
    let reason := foundSecurityContextPrivilegedVulnerability container
    if reason ≠ "" then reason
    else foundPrivilegedVulnerabilityContainer rest

/-- `privileged_pods.doesPrivilegedContainerExist`: init and app containers
(in that order), then ephemeral containers; the two reasons concatenated. -/
def doesPrivilegedContainerExist (pod : Resource) : String :=
  foundPrivilegedVulnerabilityContainer (pod.initContainers ++ pod.containers)
    ++ foundPrivilegedVulnerabilityContainer pod.ephemeralContainers

/-- `PrivilegedPodsValidator.Validate` (the typed model never fails the
unstructured-to-Pod conversion). -/
def privilegedPodsValidate (cfg : ExemptCfg) (preApprovedPods : List Resource)
    (resources : List Resource) : List Violation :=
  (GetPods resources).flatMap (fun pod =>
    if IsExempt cfg pod then []
    else if (preApprovedPods.find? (fun p =>
        p.name == pod.name && p.ns == pod.ns && p.kind == pod.kind)).isSome then []
    else if doesPrivilegedContainerExist pod ≠ "" then
      [NewViolation pod "found privileged pod" 1 "built-in:privileged-pods"]
    else [])

/-- `allowed_pods.AllowlistItem`. -/
structure AllowlistItem where
  name : String
  ns : String
  kind : String
deriving DecidableEq, Repr

/-- `allowed_pods.allowListToUnstructured`: blank resources carrying the
allowlist identities. -/
def allowListToUnstructured (allowList : List AllowlistItem) : List Resource :=
  allowList.map (fun e => { name := e.name, ns := e.ns, kind := e.kind })

/-- The pod loop of `AllowedPodsValidator.Validate`, propagating the
partiality of the ownership walk: `none` when the walk for some pod runs out
of fuel (modelling non-termination of the Go original). -/
def allowedPodsLoop (cfg : ExemptCfg) (allResources allowlist : List Resource)
    (fuel : Nat) : List Resource → Option (List Violation)
  | [] => some []
  | pod :: rest =>
    if IsExempt cfg pod then allowedPodsLoop cfg allResources allowlist fuel rest
    else
      match isInAllowlist allResources allowlist pod fuel with
      | none => none
      | some true => allowedPodsLoop cfg allResources allowlist fuel rest
      | some false =>
        match allowedPodsLoop cfg allResources allowlist fuel rest with
        | none => none
        | some vs =>
          some (NewViolation pod "NOT found in allowlist" 1
            "built-in:allowed-pods" :: vs)

/-- `AllowedPodsValidator.Validate`, given the already-parsed allowlist (the
file read and YAML parse are external collaborators; a read/parse failure is
a hard validator error before this loop runs). -/
def allowedPodsValidate (cfg : ExemptCfg) (rawAllowlist : List AllowlistItem)
    (resources : List Resource) (fuel : Nat) : Option (List Violation) :=
  allowedPodsLoop cfg resources (allowListToUnstructured rawAllowlist) fuel
    (GetPods resources)

theorem getReadinesslistItemResource_id (resources : List Resource)
    (item : ReadinesslistItem) :
    resourceId (getReadinesslistItemResource resources item).1 = itemId item := by
  rw [getReadinesslistItemResource]
  rcases hfind : resources.find? (fun resourceIter =>
      item.kind == resourceIter.kind && item.name == resourceIter.name &&
      item.ns == resourceIter.ns) with _ | r
  · rw [hfind]
    rfl
  · rw [hfind]
    have hp := List.find?_some hfind
    simp only [Bool.and_eq_true, beq_iff_eq] at hp
    simp [resourceId, itemId, hp.1.1, hp.1.2, hp.2]

theorem readinessEntry_target (resources : List Resource) (ign : Bool)
    (item : ReadinesslistItem) :
    ∀ v ∈ readinessEntryViolations resources ign item,
      resourceId v.resource = itemId item := by
  intro v hv
  simp only [readinessEntryViolations] at hv
  split at hv
  · split at hv
    · simp at hv
    · simp at hv
      rw [hv]
      exact getReadinesslistItemResource_id resources item
  · split at hv
    · simp at hv
    · simp at hv
      rw [hv]
      exact getReadinesslistItemResource_id resources item

theorem readinessValidate_filter (resources : List Resource) (ign : Bool) :
    ∀ (list : List ReadinesslistItem), (list.map itemId).Nodup →
      ∀ item ∈ list,
      (readinessValidate list ign resources).filter
          (fun v => resourceId v.resource == itemId item)
        = readinessEntryViolations resources ign item := by
  intro list
  induction list with
  | nil =>
    intro _ item h
    simp at h
  | cons e rest ih =>
    intro hnd item hmem
    rw [List.map_cons] at hnd
    have hnd2 := List.nodup_cons.mp hnd
    rw [readinessValidate, List.flatMap_cons, List.filter_append]
    rcases List.mem_cons.mp hmem with rfl | hmem2
    · have h1 : (readinessEntryViolations resources ign item).filter
          (fun v => resourceId v.resource == itemId item)
          = readinessEntryViolations resources ign item := by
        rw [List.filter_eq_self]
        intro u hu
        simp [readinessEntry_target resources ign item u hu]
      have h2 : (rest.flatMap (readinessEntryViolations resources ign)).filter
          (fun v => resourceId v.resource == itemId item) = [] := by
        rw [List.filter_eq_nil_iff]
        intro u hu
        obtain ⟨e2, he2, hu2⟩ := List.mem_flatMap.mp hu
        have ht := readinessEntry_target resources ign e2 u hu2
        have hne : itemId e2 ≠ itemId item :=
          fun h => hnd2.1 (h ▸ List.mem_map_of_mem itemId he2)
        simp [ht, hne]
      rw [h1, h2, List.append_nil]
    · have h1 : (readinessEntryViolations resources ign e).filter
          (fun v => resourceId v.resource == itemId item) = [] := by
        rw [List.filter_eq_nil_iff]
        intro u hu
        have ht := readinessEntry_target resources ign e u hu
        have hne : itemId e ≠ itemId item :=
          fun h => hnd2.1 (h ▸ List.mem_map_of_mem itemId hmem2)
        simp [ht, hne]
      rw [h1, List.nil_append, ← readinessValidate]
      exact ih hnd2.2 item hmem2

/-- C8 (amended): for every configured readiness entry (in a readiness list
without duplicate identities) whose matching resource is present in the
snapshot, the validator records no violation for that resource iff it is
ready and exactly one violation otherwise, where ready means: the
`status.conditions` path, when present, contains an entry with type `Ready`
and status `True` — the boolean `status.ready` field is consulted only when
the conditions path is absent, so `status.ready = true` does NOT make a
resource ready when a conditions list without a Ready/True entry is
present. -/
theorem readiness_rule (readinesslist : List ReadinesslistItem) (ign : Bool)
    (resources : List Resource) (item : ReadinesslistItem) (r : Resource)
    (hnd : (readinesslist.map itemId).Nodup) (hmem : item ∈ readinesslist)
    (hfound : getReadinesslistItemResource resources item = (r, true)) :
    ((readinessValidate readinesslist ign resources).filter
        (fun v => resourceId v.resource == itemId item)
      = if isResourceReady r then []
        else [NewViolation r "readiness violation" 1 "built-in:readiness"]) ∧
    (isResourceReady r = true ↔
      ((∃ cs, r.status.conditions = some cs ∧
          ∃ c ∈ cs, c.1 = "Ready" ∧ c.2 = "True") ∨
        (r.status.conditions = none ∧ r.status.ready = some true))) := by
  constructor
  · rw [readinessValidate_filter resources ign readinesslist hnd item hmem,
      readinessEntryViolations]
    simp [hfound]
  · rcases hc : r.status.conditions with _ | cs
    · rcases hr : r.status.ready with _ | b
      · simp [isResourceReady, hc, hr]
      · cases b <;> simp [isResourceReady, hc, hr]
    · rcases hfind : cs.find? (fun condition =>
          condition.1 == "Ready" && condition.2 == "True") with _ | c
      · simp only [isResourceReady, hc, hfind]
        constructor
        · intro h
          exact absurd h (by simp)
        · rintro (⟨cs2, hcs2, c, hcmem, h1, h2⟩ | ⟨hnone, _⟩)
          · injection hcs2 with e
            subst e
            have hfe := List.find?_eq_none.mp hfind c hcmem
            simp [h1, h2] at hfe
          · exact absurd hnone (by simp)
      · simp only [isResourceReady, hc, hfind]
        constructor
        · intro _
          left
          refine ⟨cs, rfl, c, List.mem_of_find?_eq_some hfind, ?_⟩
          have hp := List.find?_some hfind
          simp only [Bool.and_eq_true, beq_iff_eq] at hp
          exact ⟨hp.1, hp.2⟩
        · intro _
          trivial

/-- A resource whose conditions list has no Ready/True entry but whose
`status.ready` field is true. -/
def rdCex : Resource :=
  { kind := "Pod", name := "p", ns := "n",
    status := { conditions := some [("Ready", "False")], ready := some true } }

/-- The readiness-list entry matching `rdCex`. -/
def rdItem : ReadinesslistItem := ⟨"p", "n", "Pod"⟩

/-- Counterexample to C8 as stated: a resource with `status.ready = true` but
a conditions list lacking a Ready/True entry is treated as not ready — the
conditions path, once present, is authoritative and the `ready` field is
ignored — so the validator records a violation for it. -/
theorem readiness_cex :
    rdCex.status.ready = some true ∧
    isResourceReady rdCex = false ∧
    readinessValidate [rdItem] false [rdCex]
      = [NewViolation rdCex "readiness violation" 1 "built-in:readiness"] := by
  refine ⟨rfl, rfl, ?_⟩
  decide

/-- A ready resource (via conditions) for the C8 witness. -/
def rdReady : Resource :=
  { kind := "Pod", name := "q", ns := "n",
    status := { conditions := some [("Ready", "True")] } }

/-- The readiness-list entry matching `rdReady`. -/
def rdReadyItem : ReadinesslistItem := ⟨"q", "n", "Pod"⟩

/-- Witness for C8 (amended) at a concrete input. -/
theorem readiness_rule_witness :
    ((readinessValidate [rdReadyItem] false [rdReady]).filter
        (fun v => resourceId v.resource == itemId rdReadyItem)
      = if isResourceReady rdReady then []
        else [NewViolation rdReady "readiness violation" 1 "built-in:readiness"]) ∧
    (isResourceReady rdReady = true ↔
      ((∃ cs, rdReady.status.conditions = some cs ∧
          ∃ c ∈ cs, c.1 = "Ready" ∧ c.2 = "True") ∨
        (rdReady.status.conditions = none ∧
          rdReady.status.ready = some true))) :=
  readiness_rule [rdReadyItem] false [rdReady] rdReadyItem rdReady
    (by decide) (List.mem_singleton_self _) rfl

theorem GetPods_kind (resources : List Resource) :
    ∀ p ∈ GetPods resources, p.kind = "Pod" := by
  intro p hp
  have h := (List.mem_filter.mp hp).2
  simpa using h

theorem allowedPodsLoop_mem (cfg : ExemptCfg) (allR allow : List Resource)
    (fuel : Nat) :
    ∀ (pods : List Resource) (out : List Violation),
      allowedPodsLoop cfg allR allow fuel pods = some out →
      ∀ v ∈ out, ∃ pod ∈ pods, v.resource = pod ∧ IsExempt cfg pod = false := by
  intro pods
  induction pods with
  | nil =>
    intro out h v hv
    injection h with e
    subst e
    simp at hv
  | cons pod rest ih =>
    intro out h v hv
    rw [allowedPodsLoop] at h
    split at h
    · obtain ⟨p, hp, h1, h2⟩ := ih out h v hv
      exact ⟨p, List.mem_cons_of_mem _ hp, h1, h2⟩
    · rename_i hex
      rcases hio : isInAllowlist allR allow pod fuel with _ | b
      · rw [hio] at h
        simp at h
      · cases b with
        | true =>
          rw [hio] at h
          obtain ⟨p, hp, h1, h2⟩ := ih out h v hv
          exact ⟨p, List.mem_cons_of_mem _ hp, h1, h2⟩
        | false =>
          rw [hio] at h
          rcases hrest : allowedPodsLoop cfg allR allow fuel rest with _ | vs
          · rw [hrest] at h
            simp at h
          · rw [hrest] at h
            injection h with e
            subst e
            rcases List.mem_cons.mp hv with rfl | hv2
            · exact ⟨pod, List.mem_cons_self _ _, rfl, by simpa using hex⟩
            · obtain ⟨p, hp, h1, h2⟩ := ih vs hrest v hv2
              exact ⟨p, List.mem_cons_of_mem _ hp, h1, h2⟩

theorem freshnessValidate_mem (cfg : ExemptCfg) (now thr : Int)
    (resources : List Resource) :
    ∀ v ∈ freshnessValidate cfg now thr resources,
      ∃ pod ∈ GetPods resources, v.resource = pod ∧ IsExempt cfg pod = false := by
  intro v hv
  rw [freshnessValidate] at hv
  obtain ⟨pod, hpod, hv2⟩ := List.mem_flatMap.mp hv
  refine ⟨pod, hpod, ?_⟩
  split at hv2
  · simp at hv2
  · rename_i hex
    split at hv2
    · simp at hv2
      exact ⟨by rw [hv2]; rfl, by simpa using hex⟩
    · simp at hv2

theorem privilegedPodsValidate_mem (cfg : ExemptCfg)
    (preApprovedPods resources : List Resource) :
    ∀ v ∈ privilegedPodsValidate cfg preApprovedPods resources,
      ∃ pod ∈ GetPods resources, v.resource = pod ∧ IsExempt cfg pod = false := by
  intro v hv
  rw [privilegedPodsValidate] at hv
  obtain ⟨pod, hpod, hv2⟩ := List.mem_flatMap.mp hv
  refine ⟨pod, hpod, ?_⟩
  split at hv2
  · simp at hv2
  · rename_i hex
    split at hv2
    · simp at hv2
    · split at hv2
      · simp at hv2
        exact ⟨by rw [hv2]; rfl, by simpa using hex⟩
      · simp at hv2

/-- C9 (amended): a resource carrying the configured exemption label
name/value pair is never the target of a violation from the allowed-pods,
freshness, or privileged-pods validators, regardless of allowlist membership,
owner references, age, container security contexts, or pre-approval lists.
(The readiness validator does NOT honor the exemption mechanism — see the
counterexample.) -/
theorem exemption_suppresses (cfg : ExemptCfg) (r : Resource)
    (hex : IsExempt cfg r = true) :
    (∀ (rawAllowlist : List AllowlistItem) (resources : List Resource)
        (fuel : Nat) (out : List Violation),
      allowedPodsValidate cfg rawAllowlist resources fuel = some out →
      ∀ v ∈ out, v.resource ≠ r) ∧
    (∀ (now thr : Int) (resources : List Resource),
      ∀ v ∈ freshnessValidate cfg now thr resources, v.resource ≠ r) ∧
    (∀ (preApprovedPods resources : List Resource),
      ∀ v ∈ privilegedPodsValidate cfg preApprovedPods resources,
        v.resource ≠ r) := by
  refine ⟨?_, ?_, ?_⟩
  · intro raw resources fuel out h v hv heq
    obtain ⟨pod, _, h1, h2⟩ :=
      allowedPodsLoop_mem cfg resources _ fuel (GetPods resources) out h v hv
    rw [h1.symm.trans heq] at h2
    simp [hex] at h2
  · intro now thr resources v hv heq
    obtain ⟨pod, _, h1, h2⟩ := freshnessValidate_mem cfg now thr resources v hv
    rw [h1.symm.trans heq] at h2
    simp [hex] at h2
  · intro pre resources v hv heq
    obtain ⟨pod, _, h1, h2⟩ := privilegedPodsValidate_mem cfg pre resources v hv
    rw [h1.symm.trans heq] at h2
    simp [hex] at h2

/-- The exemption configuration of the C9 counterexample and witnesses. -/
def exCfg : ExemptCfg := ⟨"lbl", "val"⟩

/-- An exempt resource with no readiness status. -/
def exRes : Resource :=
  { kind := "Pod", name := "e", ns := "n", labels := [("lbl", "val")] }

/-- The readiness-list entry matching `exRes`. -/
def exItem : ReadinesslistItem := ⟨"e", "n", "Pod"⟩

/-- Counterexample to C9 as stated: the readiness validator has no exemption
check, so a not-ready resource carrying the configured exemption label still
yields a readiness violation targeting it. -/
theorem exemption_readiness_cex :
    IsExempt exCfg exRes = true ∧
    readinessValidate [exItem] false [exRes]
      = [NewViolation exRes "readiness violation" 1 "built-in:readiness"] := by
  refine ⟨rfl, ?_⟩
  decide

/-- A stale non-exempt pod used in the C9 witness. -/
def wStale : Resource := { kind := "Pod", name := "s", ns := "n", creationNs := some 0 }

/-- Witness for C9 (amended): the freshness run over an exempt pod and a
stale pod flags only the stale pod, whose violation does not target the
exempt resource. -/
theorem exemption_suppresses_witness :
    IsExempt exCfg exRes = true ∧
    (NewViolation wStale "Pod is stale" 1 "built-in:freshness").resource ≠ exRes := by
  refine ⟨rfl, ?_⟩
  exact (exemption_suppresses exCfg exRes rfl).2.1 10000000000000000 1
    [exRes, wStale] _ (by decide)

/-- C10: a resource whose kind is not `"Pod"` is never the target of a
violation from the allowed-pods, freshness, or privileged-pods validators,
whatever its allowlist membership, owner references, creation timestamp, or
container security contexts: each of these validators first filters the
snapshot down to kind-`Pod` resources via `GetPods` and evaluates only
those. -/
theorem nonpods_not_flagged (cfg : ExemptCfg) (r : Resource)
    (hk : r.kind ≠ "Pod") :
    (∀ (rawAllowlist : List AllowlistItem) (resources : List Resource)
        (fuel : Nat) (out : List Violation),
      allowedPodsValidate cfg rawAllowlist resources fuel = some out →
      ∀ v ∈ out, v.resource ≠ r) ∧
    (∀ (now thr : Int) (resources : List Resource),
      ∀ v ∈ freshnessValidate cfg now thr resources, v.resource ≠ r) ∧
    (∀ (preApprovedPods resources : List Resource),
      ∀ v ∈ privilegedPodsValidate cfg preApprovedPods resources,
        v.resource ≠ r) := by
  refine ⟨?_, ?_, ?_⟩
  · intro raw resources fuel out h v hv heq
    obtain ⟨pod, hp, h1, _⟩ :=
      allowedPodsLoop_mem cfg resources _ fuel (GetPods resources) out h v hv
    exact hk ((congrArg Resource.kind (h1.symm.trans heq)).symm.trans
      (GetPods_kind resources pod hp))
  · intro now thr resources v hv heq
    obtain ⟨pod, hp, h1, _⟩ := freshnessValidate_mem cfg now thr resources v hv
    exact hk ((congrArg Resource.kind (h1.symm.trans heq)).symm.trans
      (GetPods_kind resources pod hp))
  · intro pre resources v hv heq
    obtain ⟨pod, hp, h1, _⟩ := privilegedPodsValidate_mem cfg pre resources v hv
    exact hk ((congrArg Resource.kind (h1.symm.trans heq)).symm.trans
      (GetPods_kind resources pod hp))

/-- A non-Pod resource for the C10 witness. -/
def wRS : Resource := { kind := "ReplicaSet", name := "rs1", ns := "n" }

/-- A pod with a privileged container for the C10 witness. -/
def wPriv : Resource :=
  { kind := "Pod", name := "pp", ns := "n",
    containers := [some { privileged := some true }] }

/-- Witness for C10: the privileged-pods run over a ReplicaSet and a
privileged pod flags the pod; its violation does not target the ReplicaSet. -/
theorem nonpods_not_flagged_witness :
    wRS.kind ≠ "Pod" ∧
    (NewViolation wPriv "found privileged pod" 1
      "built-in:privileged-pods").resource ≠ wRS := by
  refine ⟨by decide, ?_⟩
  exact (nonpods_not_flagged ⟨"lbl", "val"⟩ wRS (by decide)).2.2 [] [wRS, wPriv]
    _ (by decide)

end KRV
